import Mathlib

/-!
Shallow embedding of the feedback-automation pipeline (ingestion, generation,
delivery) and its recommendation helpers, translated from `app/pipeline.py`,
`app/clients/genai_client.py` and `app/clients/catalog.py`.

External effects are modelled as explicit parameters:
* the timestamp parser `_iso_to_dt` as `parse : String → Option DT`
  (`none` models a raised `ValueError`),
* the generation backend call as an oracle per item,
* the marketplace submission call as a boolean oracle (`false` = exception),
* `numpy` / `scikit-learn` ranking and the float score sort in
  `catalog.similar_titles` as an arbitrary ranked list / reordering function,
* Python's process-seeded string `hash` as a parameter `pyHash`.
All other control flow (skips, breaks, commits, status transitions) is
translated branch by branch from the source.
-/

namespace WB

/-- Status enumeration of `app/db/enums.py`. -/
inductive Status where
  | loaded
  | generated
  | sent
  | failed
deriving DecidableEq, Repr

/-- Model of a Python `datetime`: an absolute instant (epoch seconds) plus
whether the value is timezone-aware.  `astimezone(timezone.utc)` keeps the
instant, `replace(tzinfo=timezone.utc)` interprets a naive value as UTC; in
both cases the UTC epoch of the stored value is `epoch`. -/
structure DT where
  epoch : Int
  aware : Bool
deriving DecidableEq, Repr

/-- Python truthiness of an `Optional[float]`: `None` and `0.0` are falsy. -/
def pyTruthy : Option ℚ → Bool
  | none => false
  | some d => d ≠ 0

/-- Python `a or default` for an optional string (`None` and `""` are falsy). -/
def pyStrOr (o : Option String) (d : String) : String :=
  match o with
  | some s => if s = "" then d else s
  | none => d

/-- Whitespace recognizer backing Python's `str.strip()` (the whitespace
characters that occur in this pipeline's data). -/
def pyIsSpace (c : Char) : Bool :=
  c = ' ' ∨ c = '\t' ∨ c = '\n' ∨ c = '\r'

/-- Python `str.strip()`: drop leading and trailing whitespace. -/
def pyStrip (s : String) : String :=
  ⟨((s.data.dropWhile pyIsSpace).reverse.dropWhile pyIsSpace).reverse⟩

/-- Lowercasing of a single character as Python `str.lower()` does it, for the
Latin and Cyrillic ranges used by this repository. -/
def pyLowerChar (c : Char) : Char :=
  if 'A' ≤ c ∧ c ≤ 'Z' then Char.ofNat (c.toNat + 32)
  else if 'А' ≤ c ∧ c ≤ 'Я' then Char.ofNat (c.toNat + 32)
  else if c = 'Ё' then 'ё'
  else c

/-- Python `str.lower()` (Latin + Cyrillic). -/
def pyLower (s : String) : String :=
  ⟨s.data.map pyLowerChar⟩

/-- Row of the `feedbacks` table (`app/db/feedback.py` with `CommonMixin` of
`app/db/mixins/wb_mixins.py`). -/
structure Feedback where
  wb_id : String
  nm_id : Option Int
  product_name : String
  text : String
  username : Option String
  product_valuation : Option Int
  status : Status
  answer_text : Option String
  created_at_wb : DT
deriving DecidableEq, Repr

/-- Row of the `questions` table (`CommonMixin` fields only). -/
structure Question where
  wb_id : String
  nm_id : Option Int
  text : String
  status : Status
  answer_text : Option String
  created_at_wb : DT
deriving DecidableEq, Repr

/-- One JSON record of a marketplace feedback listing, with the fields the
pipeline reads.  `id = ""` models a missing/falsy `id`, `createdDate = ""` a
missing/falsy `createdDate`, and `answerText` is
`((f.get("answer") or {}).get("text") or "")`. -/
structure WBRecord where
  id : String
  nmId : Option Int
  productName : Option String
  pdName : Option String
  text : Option String
  createdDate : String
  userName : Option String
  productValuation : Option Int
  answerText : String
deriving DecidableEq, Repr

/-- Product name resolution of `pipeline.py` lines 90-94:
`pd.get("productName") or pd.get("name") or ""`. -/
def liveProduct (f : WBRecord) : String :=
  pyStrOr f.productName (pyStrOr f.pdName "")

/-- Feedback row built by live-mode ingestion (`pipeline.py` lines 96-105)
once the creation timestamp `dt` is available. -/
def mkLiveItem (f : WBRecord) (dt : DT) : Feedback :=
  { wb_id := f.id
    nm_id := f.nmId
    product_name := liveProduct f
    text := pyStrOr f.text ""
    username := f.userName
    product_valuation := f.productValuation
    status := Status.loaded
    answer_text := none
    created_at_wb := dt }

/-- Live-mode treatment of one record (`pipeline.py` lines 82-107): skip on
falsy id, skip when the id is already stored, otherwise parse the timestamp
(defaulting to `utcnow()` when absent) and insert.  `none` models the
`ValueError` of `_iso_to_dt` propagating out of `ingest_feedbacks`. -/
def processLive (parse : String → Option DT) (now : DT)
    (st : List Feedback) (f : WBRecord) : Option (List Feedback × Nat) :=
  if f.id = "" then some (st, 0)
  else if st.any (fun it => it.wb_id = f.id) then some (st, 0)
  else
    match (if f.createdDate = "" then some now else parse f.createdDate) with
    | none => none
    | some dt => some (st ++ [mkLiveItem f dt], 1)

/-- Live-mode processing of one page of records. -/
def ingestPage (parse : String → Option DT) (now : DT)
    (st : List Feedback) : List WBRecord → Option (List Feedback × Nat)
  | [] => some (st, 0)
  | f :: rest =>
    match processLive parse now st f with
    | none => none
    | some (st1, n) =>
      match ingestPage parse now st1 rest with
      | none => none
      | some (st2, m) => some (st2, n + m)

/-- Function `ingest_feedbacks` of `pipeline.py` (lines 73-112) over a list of
upstream pages: stop at the first empty page, otherwise process the page and
commit once (third component counts commits, one per processed page). -/
def ingest_feedbacks (parse : String → Option DT) (now : DT) :
    List (List WBRecord) → List Feedback → Option (List Feedback × Nat × Nat)
  | [], st => some (st, 0, 0)
  | page :: rest, st =>
    if page = [] then some (st, 0, 0)
    else
      match ingestPage parse now st page with
      | none => none
      | some (st1, n) =>
        match ingest_feedbacks parse now rest st1 with
        | none => none
        | some (st2, m, c) => some (st2, n + m, c + 1)

/-- Feedback row built by archive ingestion (`pipeline.py` lines 346-355); the
stored timestamp is the parsed value normalized to UTC. -/
def mkArchiveItem (f : WBRecord) (dt : DT) : Feedback :=
  { wb_id := f.id
    nm_id := f.nmId
    product_name := liveProduct f
    text := pyStrOr f.text ""
    username := f.userName
    product_valuation := f.productValuation
    status := Status.loaded
    answer_text := none
    created_at_wb := ⟨dt.epoch, true⟩ }

/-- Archive-mode treatment of one record (`pipeline.py` lines 314-357): skip
when an upstream answer is present, when the timestamp is absent or fails to
parse (the `try/except` of lines 323-326), or when the UTC-normalized creation
time is older than the cutoff; clear the `page_all_older` flag for records
inside the window; then dedup by id and insert.  Result:
(store, inserted, page_all_older). -/
def processArchive (parse : String → Option DT) (cutoff : Int)
    (st : List Feedback) (allOlder : Bool) (f : WBRecord) :
    List Feedback × Nat × Bool :=
  if pyStrip f.answerText ≠ "" then (st, 0, allOlder)
  else if f.createdDate = "" then (st, 0, allOlder)
  else
    match parse f.createdDate with
    | none => (st, 0, allOlder)
    | some dt =>
      if dt.epoch < cutoff then (st, 0, allOlder)
      else
        if f.id = "" then (st, 0, false)
        else if st.any (fun it => it.wb_id = f.id) then (st, 0, false)
        else (st ++ [mkArchiveItem f dt], 1, false)

/-- Archive-mode processing of one page of records. -/
def ingestPageArchive (parse : String → Option DT) (cutoff : Int) :
    List Feedback → Bool → List WBRecord → List Feedback × Nat × Bool
  | st, allOlder, [] => (st, 0, allOlder)
  | st, allOlder, f :: rest =>
    match processArchive parse cutoff st allOlder f with
    | (st1, n, a1) =>
      match ingestPageArchive parse cutoff st1 a1 rest with
      | (st2, m, a2) => (st2, n + m, a2)

/-- Cutoff of `ingest_feedbacks_archive`:
`datetime.now(timezone.utc) - timedelta(days=7)` in epoch seconds. -/
def archiveCutoff (now : Int) : Int :=
  now - 7 * 86400

/-- Function `ingest_feedbacks_archive` of `pipeline.py` (lines 293-370) over
a list of upstream pages: stop at the first empty page; each page starts with
`page_all_older = True`; after committing a page, stop early when the order is
`"dateDesc"` and the whole page was older than the cutoff. -/
def ingest_feedbacks_archive (parse : String → Option DT) (cutoff : Int)
    (order : Option String) :
    List (List WBRecord) → List Feedback → List Feedback × Nat
  | [], st => (st, 0)
  | page :: rest, st =>
    if page = [] then (st, 0)
    else
      match ingestPageArchive parse cutoff st true page with
      | (st1, n, allOlder) =>
        if order = some "dateDesc" ∧ allOlder then (st1, n)
        else
          match ingest_feedbacks_archive parse cutoff order rest st1 with
          | (st2, m) => (st2, n + m)

/-- Result of the feedback half of `generate_answers` (items after the loop,
`made_fb`, `retry_after_max`). -/
structure FBLoopRes where
  items : List Feedback
  made : Nat
  ra : Option ℚ
deriving DecidableEq, Repr

/-- Result of the question half of `generate_answers`. -/
structure QLoopRes where
  items : List Question
  made : Nat
  ra : Option ℚ
deriving DecidableEq, Repr

/-- Result of `generate_answers`: both tables plus
`(made_fb, made_q, retry_after_max)`. -/
structure GenRes where
  fbs : List Feedback
  qs : List Question
  made_fb : Nat
  made_q : Nat
  ra : Option ℚ
deriving DecidableEq, Repr

/-- Feedback loop of `generate_answers` (`pipeline.py` lines 155-199).  Rows
with status other than `loaded` are outside the query; a loaded row is skipped
unless `product_valuation == 5`; the whole call to `make_answer` (with its
catalog context) is abstracted as the oracle `gen`, returning
`(text, retry_after)`.  A truthy `retry_after` sets
`retry_after_max = max(0.0, retry_after)` and breaks; falsy/empty text skips
the row; otherwise the row is committed as `generated`. -/
def runFBLoop (gen : Feedback → Option String × Option ℚ) :
    List Feedback → FBLoopRes
  | [] => ⟨[], 0, none⟩
  | fb :: rest =>
    if fb.status = Status.loaded ∧ fb.product_valuation = some 5 then
      if pyTruthy (gen fb).2 then
        ⟨fb :: rest, 0, some (max 0 (((gen fb).2).getD 0))⟩
      else
        match (gen fb).1 with
        | none =>
          let r := runFBLoop gen rest
          ⟨fb :: r.items, r.made, r.ra⟩
        | some s =>
          if s = "" then
            let r := runFBLoop gen rest
            ⟨fb :: r.items, r.made, r.ra⟩
          else
            let r := runFBLoop gen rest
            ⟨{ fb with answer_text := some s, status := Status.generated } :: r.items,
             r.made + 1, r.ra⟩
    else
      let r := runFBLoop gen rest
      ⟨fb :: r.items, r.made, r.ra⟩

/-- Question loop of `generate_answers` (`pipeline.py` lines 209-250), with the
`retry_after_max` value carried in from the feedback loop as `init`. -/
def runQLoop (gen : Question → Option String × Option ℚ) (init : Option ℚ) :
    List Question → QLoopRes
  | [] => ⟨[], 0, init⟩
  | q :: rest =>
    if q.status = Status.loaded then
      if pyTruthy (gen q).2 then
        ⟨q :: rest, 0, some (max (init.getD 0) (((gen q).2).getD 0))⟩
      else
        match (gen q).1 with
        | none =>
          let r := runQLoop gen init rest
          ⟨q :: r.items, r.made, r.ra⟩
        | some s =>
          if s = "" then
            let r := runQLoop gen init rest
            ⟨q :: r.items, r.made, r.ra⟩
          else
            let r := runQLoop gen init rest
            ⟨{ q with answer_text := some s, status := Status.generated } :: r.items,
             r.made + 1, r.ra⟩
    else
      let r := runQLoop gen init rest
      ⟨q :: r.items, r.made, r.ra⟩

/-- Function `generate_answers` of `pipeline.py` (lines 148-252): run the
feedback loop; when it ended with a truthy `retry_after_max`, return at once
(lines 201-202) without touching the question queue; otherwise run the
question loop. -/
def generate_answers (genF : Feedback → Option String × Option ℚ)
    (genQ : Question → Option String × Option ℚ)
    (fbs : List Feedback) (qs : List Question) : GenRes :=
  let rf := runFBLoop genF fbs
  if pyTruthy rf.ra then ⟨rf.items, qs, rf.made, 0, rf.ra⟩
  else
    let rq := runQLoop genQ rf.ra qs
    ⟨rf.items, rq.items, rf.made, rq.made, rq.ra⟩

/-- Repeated orchestrator runs over the same store. -/
def genIter (genF : Feedback → Option String × Option ℚ)
    (genQ : Question → Option String × Option ℚ) :
    Nat → List Feedback × List Question → List Feedback × List Question
  | 0, s => s
  | n + 1, s =>
    let r := generate_answers genF genQ s.1 s.2
    genIter genF genQ n (r.fbs, r.qs)

/-- Python truthiness test `not (fb.answer_text and fb.answer_text.strip())`
of `pipeline.py` line 261. -/
def blankAns : Option String → Bool
  | none => true
  | some s => pyStrip s = ""

/-- Per-item effect of `send_to_wb` on a row (used to state its
characterization): blank answers fail, otherwise the submission oracle decides
`sent` versus `failed` (oracle `false` models a raised exception). -/
def sendOne (submit : String → String → Bool) (fb : Feedback) : Feedback :=
  if fb.status = Status.generated then
    if blankAns fb.answer_text then { fb with status := Status.failed }
    else if submit fb.wb_id (fb.answer_text.getD "") then
      { fb with status := Status.sent }
    else { fb with status := Status.failed }
  else fb

/-- Result of `send_to_wb`: updated rows, `sent_fb`, and the submission calls
actually issued (in order). -/
structure SendRes where
  items : List Feedback
  sent : Nat
  calls : List (String × String)
deriving DecidableEq, Repr

/-- Function `send_to_wb` of `pipeline.py` (lines 256-290), feedback half (the
question half is commented out in the source).  Rows with status `generated`
are processed one by one: a blank `answer_text` is marked `failed` without
calling the API; otherwise `send_feedback_answer` is called (recorded in
`calls`) and the row becomes `sent` on success, `failed` on exception. -/
def send_to_wb (submit : String → String → Bool) : List Feedback → SendRes
  | [] => ⟨[], 0, []⟩
  | fb :: rest =>
    let r := send_to_wb submit rest
    if fb.status = Status.generated then
      if blankAns fb.answer_text then
        ⟨{ fb with status := Status.failed } :: r.items, r.sent, r.calls⟩
      else if submit fb.wb_id (fb.answer_text.getD "") then
        ⟨{ fb with status := Status.sent } :: r.items, r.sent + 1,
         (fb.wb_id, fb.answer_text.getD "") :: r.calls⟩
      else
        ⟨{ fb with status := Status.failed } :: r.items, r.sent,
         (fb.wb_id, fb.answer_text.getD "") :: r.calls⟩
    else ⟨fb :: r.items, r.sent, r.calls⟩

/-- Selection loop of the TF-IDF path of `catalog.similar_titles` (lines
263-278): walk the catalog rows in descending cosine-similarity order, strip
each title, skip the query itself (normalized-title equality) and
case-insensitive duplicates, append, and break once `len(out) >= k` (checked
after appending, as in the source). -/
def pickLoopA (norm : String → String) (qn : String) (k : Nat) :
    List String → List String → Nat → List String
  | [], _, _ => []
  | t :: rest, seen, cnt =>
    let ti := pyStrip t
    if norm ti = qn then pickLoopA norm qn k rest seen cnt
    else
      let key := pyLower ti
      if key ∈ seen then pickLoopA norm qn k rest seen cnt
      else if k ≤ cnt + 1 then [ti]
      else ti :: pickLoopA norm qn k rest (key :: seen) (cnt + 1)

/-- Selection loop of the fallback path of `catalog.similar_titles` (lines
285-295): walk the score-sorted candidates, skip blank keys and
case-insensitive duplicates, append the original (unstripped) title, break
once `len(result) >= k` (checked after appending). -/
def pickLoopB (k : Nat) :
    List String → List String → Nat → List String
  | [], _, _ => []
  | t :: rest, seen, cnt =>
    let key := pyLower (pyStrip t)
    if key = "" ∨ key ∈ seen then pickLoopB k rest seen cnt
    else if k ≤ cnt + 1 then [t]
    else t :: pickLoopB k rest (key :: seen) (cnt + 1)

/-- Function `similar_titles` of `app/clients/catalog.py` (lines 246-295).
Abstracted inputs: `norm` is the title normalization `_normalize_title`;
`rankedTitles` is the sequence of catalog row titles in descending cosine
similarity to the query's description (the `numpy` `argsort` of line 263);
`qHasDesc` is the condition of lines 256-259 (the query matches a catalog row
whose description is non-blank); `sortByScore` is the descending sort by the
float `_score_titles` value (lines 282-283). -/
def similar_titles (norm : String → String)
    (sortByScore : List String → List String)
    (rankedTitles : List String) (qHasDesc : Bool)
    (query_title : String) (catalog_titles : List String) (k : Nat) :
    List String :=
  if query_title = "" ∨ catalog_titles = [] then []
  else if qHasDesc then
    pickLoopA norm (norm query_title) k rankedTitles [] 0
  else
    let qn := norm query_title
    let candidates := catalog_titles.filter (fun t => ¬ norm t = qn)
    pickLoopB k (sortByScore candidates) [] 0

/-- Input schema `AnswerInput` of `app/schemas/gemini_schemas.py`. -/
structure AnswerInput where
  kind : String
  text : String
  product_name : Option String
  rating : Option Int
deriving DecidableEq, Repr

/-- Markers `_NO_TEXT_MARKERS` of `genai_client.py`. -/
def NO_TEXT_MARKERS : List String :=
  ["отзыв без текста.", "вопрос без текста."]

/-- Predicate `_is_no_text_feedback` of `genai_client.py` (lines 202-210). -/
def is_no_text_feedback (inp : AnswerInput) : Bool :=
  if inp.kind ≠ "feedback" then false
  else
    let t := pyLower (pyStrip inp.text)
    t = "" ∨ NO_TEXT_MARKERS.contains t ∨ t.length ≤ 2

/-- Inner `push_many` of `_pick_recos` (`genai_client.py` lines 221-237):
push pool entries onto `out`, skipping blanks, excluded keys and
case-insensitive duplicates, breaking once `len(out) >= k` (checked after
appending). -/
def pushMany (k : Nat) (excl : List String) :
    List String → List String → List String
  | out, [] => out
  | out, t :: rest =>
    let s := pyStrip t
    if s = "" then pushMany k excl out rest
    else
      let key := pyLower s
      if key ∈ excl then pushMany k excl out rest
      else if out.any (fun x => key = pyLower x) then pushMany k excl out rest
      else
        let out1 := out ++ [s]
        if k ≤ out1.length then out1 else pushMany k excl out1 rest

/-- Function `_pick_recos` of `genai_client.py` (lines 212-243): fill from the
preferred pool first, then from the general pool, return `out[:k]`. -/
def pick_recos (preferred available exclude : List String) (k : Nat) :
    List String :=
  let excl := exclude.map (fun e => pyLower (pyStrip e))
  let out := pushMany k excl [] preferred
  let out1 := if out.length < k then pushMany k excl out available else out
  out1.take k

/-- Template texts `_NO_TEXT_VARIANTS` of `genai_client.py`, split at the
`{product}` placeholder into (prefix, suffix) pairs; `lead` in
`_render_no_text_reply` is `prefix ++ product ++ suffix`. -/
def NO_TEXT_VARIANTS : List (String × String) :=
  [("Спасибо за доверие! Если вам близок характер «",
    "», загляните в профиль Armoule — там ждут новые истории ароматов."),
   ("Благодарим за высокую оценку! Если настроение «",
    "» вам откликнулось, посмотрите ещё ароматы Armoule."),
   ("Спасибо за 5★! Если вы полюбили «",
    "», в профиле Armoule найдёте ещё несколько настроений."),
   ("Радуемся вашей оценке! Если «",
    "» пришёлся по душе, загляните к Armoule — там есть чем вдохновиться."),
   ("Спасибо! Если понравился характер «",
    "», в профиле Armoule есть и другие истории ароматов."),
   ("Благодарим! Если «",
    "» стал вашим настроением, присмотритесь к другим ароматам Armoule."),
   ("Спасибо за вашу оценку! Если «",
    "» вам близок, загляните к Armoule за новыми открытиями."),
   ("Признательны за 5★! Если «",
    "» понравился, в профиле Armoule вас ждут родственные настроения.")]

/-- Function `_render_no_text_reply` of `genai_client.py` (lines 256-263).
`pyHash` abstracts Python's process-seeded `hash` on strings; the variant
index is `abs(hash(p.lower())) % len(_NO_TEXT_VARIANTS)` for a non-empty
product, else 0; recommendations are appended as `🔹`-bullets. -/
def render_no_text_reply (pyHash : String → Int) (product : String)
    (recos : List String) : String :=
  let p := pyStrip product
  let idx := if p = "" then 0 else (pyHash (pyLower p)).natAbs % NO_TEXT_VARIANTS.length
  let v := NO_TEXT_VARIANTS.getD idx ("", "")
  let lead := v.1 ++ (if p = "" then "аромат" else p) ++ v.2
  let body :=
    if recos = [] then lead
    else lead ++ "\n" ++ ("🔹 " ++ String.intercalate "\n🔹 " recos)
  pyStrip body

/-- Outcome of one call of the generation backend
(`_GeminiAdapter.generate_content` wrapped by the `try/except` of
`make_answer` lines 332-368): a reply text, a quota/rate exception carrying a
parsed `retry_after`, or any other caught exception. -/
inductive GenOutcome where
  | ok (text : String)
  | quota (ra : Option ℚ)
  | fail
deriving DecidableEq, Repr

/-- Function `make_answer` of `genai_client.py` (lines 278-368).  The rating
gate (lines 287-293) returns `(None, None)` for feedback with rating other
than exactly 5; the no-text branch (lines 295-302) synthesizes a reply without
touching the backend; otherwise the backend outcome decides the result, with
the reply post-filtering of lines 339-353 abstracted as `postFilter` (it maps
a non-empty raw reply to the cleaned optional text). -/
def make_answer (pyHash : String → Int)
    (postFilter : List String → String → Option String)
    (backend : GenOutcome) (inp : AnswerInput)
    (available preferred exclude : List String) :
    Option String × Option ℚ :=
  if inp.kind = "feedback" ∧ inp.rating ≠ some 5 then (none, none)
  else if is_no_text_feedback inp then
    let product := pyStrip (pyStrOr inp.product_name "")
    let exclude1 := exclude ++ (if product ≠ "" then [product] else [])
    let recos := pick_recos preferred available exclude1 3
    let text := render_no_text_reply pyHash product recos
    ((if text = "" then none else some text), none)
  else
    match backend with
    | GenOutcome.ok t =>
      if pyStrip t = "" then (none, none)
      else (postFilter exclude (pyStrip t), none)
    | GenOutcome.quota ra => (none, ra)
    | GenOutcome.fail => (none, none)

/-- Submission attempts issued by `send_to_wb`: a call happens exactly for the
`generated` rows with a non-blank `answer_text`. -/
def sendAttempted (fb : Feedback) : Bool :=
  decide (fb.status = Status.generated) && !blankAns fb.answer_text

theorem send_to_wb_items_eq (submit : String → String → Bool)
    (fbs : List Feedback) :
    (send_to_wb submit fbs).items = fbs.map (sendOne submit) ∧
    (send_to_wb submit fbs).calls =
      (fbs.filter sendAttempted).map
        (fun fb => (fb.wb_id, fb.answer_text.getD "")) := by
  induction fbs with
  | nil => exact ⟨rfl, rfl⟩
  | cons fb rest ih =>
    by_cases hg : fb.status = Status.generated
    · by_cases hb : blankAns fb.answer_text = true
      · simp [send_to_wb, sendOne, sendAttempted, hg, hb, ih.1, ih.2]
      · simp only [Bool.not_eq_true] at hb
        by_cases hs : submit fb.wb_id (fb.answer_text.getD "") = true
        · simp [send_to_wb, sendOne, sendAttempted, hg, hb, hs, ih.1, ih.2]
        · simp only [Bool.not_eq_true] at hs
          simp [send_to_wb, sendOne, sendAttempted, hg, hb, hs, ih.1, ih.2]
    · simp [send_to_wb, sendOne, sendAttempted, hg, ih.1, ih.2]

/-- C5: delivery moves every `generated` row to exactly one of `sent`/`failed`
and never leaves it `generated`: the run rewrites the table pointwise by
`sendOne` (so no row halts the batch), calls the marketplace exactly for the
non-blank `generated` rows, sends a blank `generated` row to `failed` without
a call, a successful submission to `sent`, and a raised submission exception
(`submit … = false`) to `failed`. -/
theorem send_to_wb_total_transition (submit : String → String → Bool)
    (fbs : List Feedback) :
    (send_to_wb submit fbs).items = fbs.map (sendOne submit) ∧
    (send_to_wb submit fbs).calls =
      (fbs.filter sendAttempted).map
        (fun fb => (fb.wb_id, fb.answer_text.getD "")) ∧
    ∀ fb ∈ fbs, fb.status = Status.generated →
      ((sendOne submit fb).status = Status.sent ∨
        (sendOne submit fb).status = Status.failed) ∧
      ¬ (sendOne submit fb).status = Status.generated ∧
      (blankAns fb.answer_text = true →
        (sendOne submit fb).status = Status.failed ∧
        sendAttempted fb = false) ∧
      (blankAns fb.answer_text = false →
        submit fb.wb_id (fb.answer_text.getD "") = true →
        (sendOne submit fb).status = Status.sent) ∧
      (blankAns fb.answer_text = false →
        submit fb.wb_id (fb.answer_text.getD "") = false →
        (sendOne submit fb).status = Status.failed) := by
  refine ⟨(send_to_wb_items_eq submit fbs).1, (send_to_wb_items_eq submit fbs).2, ?_⟩
  intro fb _ hg
  by_cases hb : blankAns fb.answer_text = true
  · simp [sendOne, sendAttempted, hg, hb]
  · simp only [Bool.not_eq_true] at hb
    by_cases hs : submit fb.wb_id (fb.answer_text.getD "") = true
    · simp [sendOne, sendAttempted, hg, hb, hs]
    · simp only [Bool.not_eq_true] at hs
      simp [sendOne, sendAttempted, hg, hb, hs]

/-- Witness for `send_to_wb_total_transition` at a concrete `generated` row
with a non-blank answer and a succeeding submission. -/
theorem send_to_wb_total_transition_witness :
    (sendOne (fun _ _ => true)
        ⟨"f1", none, "P", "t", none, some 5, Status.generated, some "ok", ⟨0, true⟩⟩).status =
        Status.sent ∨
      (sendOne (fun _ _ => true)
        ⟨"f1", none, "P", "t", none, some 5, Status.generated, some "ok", ⟨0, true⟩⟩).status =
        Status.failed :=
  ((send_to_wb_total_transition (fun _ _ => true)
      [⟨"f1", none, "P", "t", none, some 5, Status.generated, some "ok", ⟨0, true⟩⟩]).2.2
    ⟨"f1", none, "P", "t", none, some 5, Status.generated, some "ok", ⟨0, true⟩⟩
    (by simp) rfl).1

/-- C10: when the feedback loop of `generate_answers` ends with a truthy
`retry_after_max` (a quota break), the question queue is returned untouched,
`made_q = 0`, and the quota delay is reported as the run's result. -/
theorem quota_skips_question_queue
    (genF : Feedback → Option String × Option ℚ)
    (genQ : Question → Option String × Option ℚ)
    (fbs : List Feedback) (qs : List Question)
    (h : pyTruthy (runFBLoop genF fbs).ra = true) :
    (generate_answers genF genQ fbs qs).qs = qs ∧
    (generate_answers genF genQ fbs qs).made_q = 0 ∧
    (generate_answers genF genQ fbs qs).ra = (runFBLoop genF fbs).ra := by
  simp [generate_answers, h]

/-- Witness for `quota_skips_question_queue`: a single eligible feedback row
whose backend call reports a quota delay of 1 second. -/
theorem quota_skips_question_queue_witness :
    (generate_answers (fun _ => (none, some 1)) (fun _ => (some "a", none))
        [⟨"f1", none, "P", "t", none, some 5, Status.loaded, none, ⟨0, true⟩⟩]
        [⟨"q1", none, "t", Status.loaded, none, ⟨0, true⟩⟩]).qs =
      [⟨"q1", none, "t", Status.loaded, none, ⟨0, true⟩⟩] :=
  (quota_skips_question_queue (fun _ => (none, some 1)) (fun _ => (some "a", none))
    [⟨"f1", none, "P", "t", none, some 5, Status.loaded, none, ⟨0, true⟩⟩]
    [⟨"q1", none, "t", Status.loaded, none, ⟨0, true⟩⟩] (by decide)).1

theorem pickLoopA_length (norm : String → String) (qn : String) (k : Nat) :
    ∀ ts seen cnt, cnt < k →
      (pickLoopA norm qn k ts seen cnt).length ≤ k - cnt := by
  intro ts
  induction ts with
  | nil => intro seen cnt _; simp [pickLoopA]
  | cons t rest ih =>
    intro seen cnt hcnt
    simp only [pickLoopA]
    by_cases h1 : norm (pyStrip t) = qn
    · simpa [h1] using ih seen cnt hcnt
    · by_cases h2 : pyLower (pyStrip t) ∈ seen
      · simpa [h1, h2] using ih seen cnt hcnt
      · by_cases h3 : k ≤ cnt + 1
        · simp only [h1, h2, h3, if_true, if_false, Bool.false_eq_true,
            List.length_cons, List.length_nil]
          omega
        · have h4 : cnt + 1 < k := by omega
          have := ih (pyLower (pyStrip t) :: seen) (cnt + 1) h4
          simp only [h1, h2, h3, if_true, if_false, Bool.false_eq_true,
            List.length_cons]
          omega

theorem pickLoopA_excludes (norm : String → String) (qn : String) (k : Nat) :
    ∀ ts seen cnt t, t ∈ pickLoopA norm qn k ts seen cnt →
      ¬ norm t = qn := by
  intro ts
  induction ts with
  | nil => intro seen cnt t ht; simp [pickLoopA] at ht
  | cons t0 rest ih =>
    intro seen cnt t ht
    simp only [pickLoopA] at ht
    by_cases h1 : norm (pyStrip t0) = qn
    · exact ih seen cnt t (by simpa [h1] using ht)
    · by_cases h2 : pyLower (pyStrip t0) ∈ seen
      · exact ih seen cnt t (by simpa [h1, h2] using ht)
      · by_cases h3 : k ≤ cnt + 1
        · simp only [h1, h2, h3, if_true, if_false, Bool.false_eq_true,
            List.mem_singleton] at ht
          subst ht; exact h1
        · simp only [h1, h2, h3, if_true, if_false, Bool.false_eq_true,
            List.mem_cons] at ht
          rcases ht with rfl | ht
          · exact h1
          · exact ih _ _ t ht

theorem pickLoopB_length (k : Nat) :
    ∀ ts seen cnt, cnt < k →
      (pickLoopB k ts seen cnt).length ≤ k - cnt := by
  intro ts
  induction ts with
  | nil => intro seen cnt _; simp [pickLoopB]
  | cons t rest ih =>
    intro seen cnt hcnt
    simp only [pickLoopB]
    by_cases h1 : pyLower (pyStrip t) = "" ∨ pyLower (pyStrip t) ∈ seen
    · simpa [h1] using ih seen cnt hcnt
    · by_cases h3 : k ≤ cnt + 1
      · simp only [h1, h3, if_true, if_false, List.length_cons, List.length_nil]
        omega
      · have h4 : cnt + 1 < k := by omega
        have := ih (pyLower (pyStrip t) :: seen) (cnt + 1) h4
        simp only [h1, h3, if_true, if_false, List.length_cons]
        omega

theorem pickLoopB_mem (k : Nat) :
    ∀ ts seen cnt t, t ∈ pickLoopB k ts seen cnt → t ∈ ts := by
  intro ts
  induction ts with
  | nil => intro seen cnt t ht; simp [pickLoopB] at ht
  | cons t0 rest ih =>
    intro seen cnt t ht
    simp only [pickLoopB] at ht
    by_cases h1 : pyLower (pyStrip t0) = "" ∨ pyLower (pyStrip t0) ∈ seen
    · exact List.mem_cons_of_mem _ (ih seen cnt t (by simpa [h1] using ht))
    · by_cases h3 : k ≤ cnt + 1
      · simp only [h1, h3, if_true, if_false, List.mem_singleton] at ht
        subst ht; exact List.mem_cons_self _ _
      · simp only [h1, h3, if_true, if_false, List.mem_cons] at ht
        rcases ht with rfl | ht
        · exact List.mem_cons_self _ _
        · exact List.mem_cons_of_mem _ (ih _ _ t ht)

/-- C3 counterexample: with `k = 0` the selection loop appends a title before
checking the bound, so `similar_titles` returns one result, more than `k`. -/
theorem similar_titles_k_zero_counterexample :
    ¬ (similar_titles id id [] false "a" ["b"] 0).length ≤ 0 := by
  decide

/-- C3 amended: for every positive `k`, every normalization, every ranking of
the description index and every reordering-by-score, `similar_titles` returns
at most `k` titles, never a title equal to the query under normalized-title
equality, and the empty list when the query string or the catalog is empty. -/
theorem similar_titles_bounds (norm : String → String)
    (sortByScore : List String → List String)
    (rankedTitles : List String) (qHasDesc : Bool)
    (p : String) (cat : List String) (k : Nat)
    (hsort : ∀ l t, t ∈ sortByScore l → t ∈ l) (hk : 1 ≤ k) :
    (similar_titles norm sortByScore rankedTitles qHasDesc p cat k).length ≤ k ∧
    (∀ t ∈ similar_titles norm sortByScore rankedTitles qHasDesc p cat k,
      ¬ norm t = norm p) ∧
    (p = "" ∨ cat = [] →
      similar_titles norm sortByScore rankedTitles qHasDesc p cat k = []) := by
  refine ⟨?_, ?_, ?_⟩
  · by_cases h0 : p = "" ∨ cat = []
    · simp [similar_titles, h0]
    · by_cases hd : qHasDesc = true
      · have := pickLoopA_length norm (norm p) k rankedTitles [] 0 (by omega)
        simpa [similar_titles, h0, hd] using this
      · simp only [Bool.not_eq_true] at hd
        have := pickLoopB_length k
          (sortByScore (cat.filter (fun t => ¬ norm t = norm p))) [] 0 (by omega)
        simpa [similar_titles, h0, hd] using this
  · intro t ht
    by_cases h0 : p = "" ∨ cat = []
    · simp [similar_titles, h0] at ht
    · by_cases hd : qHasDesc = true
      · simp only [similar_titles, h0, hd, if_false, if_true] at ht
        exact pickLoopA_excludes norm (norm p) k rankedTitles [] 0 t ht
      · simp only [Bool.not_eq_true] at hd
        simp only [similar_titles, h0, hd, if_false, Bool.false_eq_true] at ht
        have hmem := pickLoopB_mem k _ [] 0 t ht
        have hc := hsort _ t hmem
        have := List.mem_filter.mp hc
        simpa using this.2
  · intro h0
    simp [similar_titles, h0]

/-- Witness for `similar_titles_bounds` at `k = 1` with the identity
normalization and reordering. -/
theorem similar_titles_bounds_witness :
    (similar_titles id id [] false "a" ["b"] 1).length ≤ 1 :=
  (similar_titles_bounds id id [] false "a" ["b"] 1
    (fun _ _ h => h) (by decide)).1

theorem runFBLoop_length (gen : Feedback → Option String × Option ℚ) :
    ∀ fbs : List Feedback, (runFBLoop gen fbs).items.length = fbs.length := by
  intro fbs
  induction fbs with
  | nil => simp [runFBLoop]
  | cons fb rest ih =>
    by_cases he : fb.status = Status.loaded ∧ fb.product_valuation = some 5
    · by_cases hq : pyTruthy (gen fb).2 = true
      · simp [runFBLoop, he, hq]
      · simp only [Bool.not_eq_true] at hq
        cases ht : (gen fb).1 with
        | none => simp [runFBLoop, he, hq, ht, ih]
        | some s =>
          by_cases hs : s = ""
          · simp [runFBLoop, he, hq, ht, hs, ih]
          · simp [runFBLoop, he, hq, ht, hs, ih]
    · simp [runFBLoop, he, ih]

theorem runFBLoop_skips_ineligible (gen : Feedback → Option String × Option ℚ) :
    ∀ (fbs : List Feedback) (i : Nat) (fb : Feedback), fbs[i]? = some fb →
      fb.status = Status.loaded → fb.product_valuation ≠ some 5 →
      (runFBLoop gen fbs).items[i]? = some fb := by
  intro fbs
  induction fbs with
  | nil => intro i fb h; simp at h
  | cons fb0 rest ih =>
    intro i fb hget hld hne
    by_cases he : fb0.status = Status.loaded ∧ fb0.product_valuation = some 5
    · by_cases hq : pyTruthy (gen fb0).2 = true
      · simpa [runFBLoop, he, hq] using hget
      · simp only [Bool.not_eq_true] at hq
        cases i with
        | zero =>
          simp only [List.getElem?_cons_zero, Option.some_inj] at hget
          subst hget
          exact absurd he.2 hne
        | succ j =>
          simp only [List.getElem?_cons_succ] at hget
          cases ht : (gen fb0).1 with
          | none =>
            simpa [runFBLoop, he, hq, ht] using ih j fb hget hld hne
          | some s =>
            by_cases hs : s = ""
            · simpa [runFBLoop, he, hq, ht, hs] using ih j fb hget hld hne
            · simpa [runFBLoop, he, hq, ht, hs] using ih j fb hget hld hne
    · cases i with
      | zero =>
        simp only [List.getElem?_cons_zero, Option.some_inj] at hget
        subst hget
        simp [runFBLoop, he]
      | succ j =>
        simp only [List.getElem?_cons_succ] at hget
        simpa [runFBLoop, he] using ih j fb hget hld hne

theorem runFBLoop_generated_source (gen : Feedback → Option String × Option ℚ) :
    ∀ (fbs : List Feedback) (i : Nat) (fb fb' : Feedback), fbs[i]? = some fb →
      (runFBLoop gen fbs).items[i]? = some fb' →
      fb'.status = Status.generated →
      fb.status = Status.generated ∨ fb.product_valuation = some 5 := by
  intro fbs
  induction fbs with
  | nil => intro i fb fb' h; simp at h
  | cons fb0 rest ih =>
    intro i fb fb' hget hget' hgen
    by_cases he : fb0.status = Status.loaded ∧ fb0.product_valuation = some 5
    · by_cases hq : pyTruthy (gen fb0).2 = true
      · simp only [runFBLoop, he, and_self, if_true, hq] at hget'
        rw [hget] at hget'
        obtain rfl := Option.some_inj.mp hget'
        exact Or.inl hgen
      · simp only [Bool.not_eq_true] at hq
        cases i with
        | zero =>
          simp only [List.getElem?_cons_zero, Option.some_inj] at hget
          subst hget
          exact Or.inr he.2
        | succ j =>
          simp only [List.getElem?_cons_succ] at hget
          cases ht : (gen fb0).1 with
          | none =>
            simp only [runFBLoop, he, and_self, if_true, hq, ht,
              Bool.false_eq_true, if_false, List.getElem?_cons_succ] at hget'
            exact ih j fb fb' hget hget' hgen
          | some s =>
            by_cases hs : s = ""
            · simp only [runFBLoop, he, and_self, if_true, hq, ht, hs,
                Bool.false_eq_true, if_false, if_true,
                List.getElem?_cons_succ] at hget'
              exact ih j fb fb' hget hget' hgen
            · simp only [runFBLoop, he, and_self, if_true, hq, ht, hs,
                Bool.false_eq_true, if_false, if_true,
                List.getElem?_cons_succ] at hget'
              exact ih j fb fb' hget hget' hgen
    · cases i with
      | zero =>
        simp only [List.getElem?_cons_zero, Option.some_inj] at hget
        subst hget
        simp only [runFBLoop, he, Bool.false_eq_true, if_false,
          List.getElem?_cons_zero, Option.some_inj] at hget'
        subst hget'
        exact Or.inl hgen
      | succ j =>
        simp only [List.getElem?_cons_succ] at hget
        simp only [runFBLoop, he, Bool.false_eq_true, if_false,
          List.getElem?_cons_succ] at hget'
        exact ih j fb fb' hget hget' hgen

theorem generate_answers_fbs_eq (genF : Feedback → Option String × Option ℚ)
    (genQ : Question → Option String × Option ℚ)
    (fbs : List Feedback) (qs : List Question) :
    (generate_answers genF genQ fbs qs).fbs = (runFBLoop genF fbs).items := by
  by_cases h : pyTruthy (runFBLoop genF fbs).ra = true
  · simp [generate_answers, h]
  · simp only [Bool.not_eq_true] at h
    simp [generate_answers, h]

/-- C1: the orchestrator moves a stored feedback item from `loaded` to
`generated` only when its rating is exactly 5.  First conjunct: a `loaded`
item with an unset answer and a rating other than 5 (absent included) is
bit-for-bit unchanged — in particular still `loaded` with `answer_text =
none` — after any number `n` of orchestrator runs, for every backend
behavior.  Second conjunct: any item that is `generated` after a single run
either already was `generated` or carried rating 5. -/
theorem generation_gated_by_rating
    (genF : Feedback → Option String × Option ℚ)
    (genQ : Question → Option String × Option ℚ)
    (fbs : List Feedback) (qs : List Question) (n i : Nat) (fb : Feedback)
    (hget : fbs[i]? = some fb) :
    (fb.status = Status.loaded → fb.product_valuation ≠ some 5 →
      fb.answer_text = none →
      (genIter genF genQ n (fbs, qs)).1[i]? = some fb) ∧
    (∀ fb', (generate_answers genF genQ fbs qs).fbs[i]? = some fb' →
      fb'.status = Status.generated →
      fb.status = Status.generated ∨ fb.product_valuation = some 5) := by
  constructor
  · intro hld hne _
    induction n generalizing fbs qs with
    | zero => simpa [genIter] using hget
    | succ m ih =>
      have h1 : (generate_answers genF genQ fbs qs).fbs[i]? = some fb := by
        rw [generate_answers_fbs_eq]
        exact runFBLoop_skips_ineligible genF fbs i fb hget hld hne
      simpa [genIter] using ih _ _ h1
  · intro fb' hget' hgen
    rw [generate_answers_fbs_eq] at hget'
    exact runFBLoop_generated_source genF fbs i fb fb' hget hget' hgen

/-- Witness for `generation_gated_by_rating`: a loaded rating-4 item is
unchanged after two orchestrator runs even though the backend would answer. -/
theorem generation_gated_by_rating_witness :
    (genIter (fun _ => (some "x", none)) (fun _ => (some "x", none)) 2
        ([⟨"f1", none, "P", "t", none, some 4, Status.loaded, none, ⟨0, true⟩⟩], [])).1[0]? =
      some ⟨"f1", none, "P", "t", none, some 4, Status.loaded, none, ⟨0, true⟩⟩ :=
  (generation_gated_by_rating (fun _ => (some "x", none)) (fun _ => (some "x", none))
      [⟨"f1", none, "P", "t", none, some 4, Status.loaded, none, ⟨0, true⟩⟩] [] 2 0
      ⟨"f1", none, "P", "t", none, some 4, Status.loaded, none, ⟨0, true⟩⟩ rfl).1
    rfl (by decide) rfl

/-- Per-item effect of the feedback loop on an item that does not trigger a
quota break: ineligible rows and rows with a falsy reply are untouched, rows
with a non-empty reply are committed as `generated`. -/
def fbProcess (gen : Feedback → Option String × Option ℚ) (fb : Feedback) :
    Feedback :=
  if fb.status = Status.loaded ∧ fb.product_valuation = some 5 then
    if pyTruthy (gen fb).2 then fb
    else
      match (gen fb).1 with
      | none => fb
      | some s =>
        if s = "" then fb
        else { fb with answer_text := some s, status := Status.generated }
  else fb

/-- Rows the feedback loop commits (counts towards `made_fb`) when no quota
break interrupts them. -/
def fbCommitted (gen : Feedback → Option String × Option ℚ) (fb : Feedback) :
    Bool :=
  decide (fb.status = Status.loaded ∧ fb.product_valuation = some 5) &&
  !pyTruthy (gen fb).2 &&
  (match (gen fb).1 with
   | none => false
   | some s => decide (¬ s = ""))

theorem runFBLoop_break_split (gen : Feedback → Option String × Option ℚ)
    (t : Feedback) (d : ℚ)
    (ht1 : t.status = Status.loaded) (ht2 : t.product_valuation = some 5)
    (ht3 : (gen t).2 = some d) (ht4 : 0 < d) :
    ∀ (pre post : List Feedback),
      (∀ p ∈ pre, p.status = Status.loaded → p.product_valuation = some 5 →
        pyTruthy (gen p).2 = false) →
      runFBLoop gen (pre ++ t :: post) =
        ⟨pre.map (fbProcess gen) ++ t :: post,
         (pre.filter (fbCommitted gen)).length, some d⟩ := by
  have htq : pyTruthy (gen t).2 = true := by
    simp only [ht3, pyTruthy, ne_eq, decide_eq_true_eq]
    exact ne_of_gt ht4
  have hmax : max (0 : ℚ) ((gen t).2.getD 0) = d := by
    rw [ht3]
    simpa using le_of_lt ht4
  intro pre
  induction pre with
  | nil =>
    intro post _
    simp [runFBLoop, ht1, ht2, htq, hmax, fbProcess, fbCommitted]
  | cons p pre' ih =>
    intro post hpre
    have hrest := ih post (fun q hq => hpre q (List.mem_cons_of_mem _ hq))
    by_cases he : p.status = Status.loaded ∧ p.product_valuation = some 5
    · have hq : pyTruthy (gen p).2 = false := hpre p (List.mem_cons_self _ _) he.1 he.2
      cases hg : (gen p).1 with
      | none =>
        simp [runFBLoop, he, hq, hg, hrest, fbProcess, fbCommitted]
      | some s =>
        by_cases hs : s = ""
        · simp [runFBLoop, he, hq, hg, hs, hrest, fbProcess, fbCommitted]
        · simp [runFBLoop, he, hq, hg, hs, hrest, fbProcess, fbCommitted]
    · simp [runFBLoop, he, hrest, fbProcess, fbCommitted]

/-- C4: when the backend reports a quota signal `(None, d)` with a positive
suggested delay `d` for some eligible item `t`, and no earlier item of the
pass triggered a quota break, the orchestrator stops the pass at `t`: the
items before `t` keep their per-item outcome (in particular every item
committed earlier stays `generated`), `t` itself and everything after it are
unchanged (`t` stays `loaded` with its answer unset), the question queue is
untouched, and the run reports `retry_after = d`. -/
theorem quota_halts_feedback_pass
    (genF : Feedback → Option String × Option ℚ)
    (genQ : Question → Option String × Option ℚ)
    (qs : List Question) (pre post : List Feedback) (t : Feedback) (d : ℚ)
    (hpre : ∀ p ∈ pre, p.status = Status.loaded → p.product_valuation = some 5 →
      pyTruthy (genF p).2 = false)
    (ht1 : t.status = Status.loaded) (ht2 : t.product_valuation = some 5)
    (ht3 : genF t = (none, some d)) (ht4 : 0 < d) :
    generate_answers genF genQ (pre ++ t :: post) qs =
      ⟨pre.map (fbProcess genF) ++ t :: post, qs,
       (pre.filter (fbCommitted genF)).length, 0, some d⟩ := by
  have hb := runFBLoop_break_split genF t d ht1 ht2 (by rw [ht3]) ht4 pre post hpre
  have htr : pyTruthy (some d) = true := by
    simp only [pyTruthy, ne_eq, decide_eq_true_eq]
    exact ne_of_gt ht4
  simp [generate_answers, hb, htr]

/-- Witness for `quota_halts_feedback_pass`: one already-processed item in
front, then the quota-triggering item; the pass reports a 12.5 second delay
and leaves the trigger `loaded`. -/
theorem quota_halts_feedback_pass_witness :
    generate_answers
        (fun fb => if fb.wb_id = "f1" then (some "ok", none) else (none, some (25 / 2)))
        (fun _ => (some "x", none))
        [⟨"f1", none, "P", "t", none, some 5, Status.loaded, none, ⟨0, true⟩⟩,
         ⟨"f2", none, "Q", "u", none, some 5, Status.loaded, none, ⟨0, true⟩⟩]
        [] =
      ⟨[⟨"f1", none, "P", "t", none, some 5, Status.generated, some "ok", ⟨0, true⟩⟩,
        ⟨"f2", none, "Q", "u", none, some 5, Status.loaded, none, ⟨0, true⟩⟩],
       [], 1, 0, some (25 / 2)⟩ := by
  have h := quota_halts_feedback_pass
    (fun fb => if fb.wb_id = "f1" then (some "ok", none) else (none, some (25 / 2)))
    (fun _ => (some "x", none)) []
    [⟨"f1", none, "P", "t", none, some 5, Status.loaded, none, ⟨0, true⟩⟩]
    [] ⟨"f2", none, "Q", "u", none, some 5, Status.loaded, none, ⟨0, true⟩⟩ (25 / 2)
    (by intro p hp _ _; simp only [List.mem_singleton] at hp; subst hp; decide)
    rfl rfl rfl (by norm_num)
  simpa [fbProcess, fbCommitted] using h

/-- Pairwise distinctness of the unique key `wb_id` (the `unique=True`
constraint of `CommonMixin.wb_id`). -/
def uniqIds (st : List Feedback) : Prop :=
  st.Pairwise (fun a b => a.wb_id ≠ b.wb_id)

theorem processLive_inv (parse : String → Option DT) (now : DT)
    (st : List Feedback) (f : WBRecord) (st1 : List Feedback) (n : Nat)
    (h : processLive parse now st f = some (st1, n)) :
    (st1 = st ∧ n = 0 ∧
      (f.id = "" ∨ st.any (fun it => it.wb_id = f.id) = true)) ∨
    (∃ dt, ¬ f.id = "" ∧ st.any (fun it => it.wb_id = f.id) = false ∧
      (if f.createdDate = "" then some now else parse f.createdDate) = some dt ∧
      st1 = st ++ [mkLiveItem f dt] ∧ n = 1) := by
  by_cases h1 : f.id = ""
  · simp only [processLive, h1, if_true, Option.some_inj, Prod.mk.injEq] at h
    exact Or.inl ⟨h.1.symm, h.2.symm, Or.inl h1⟩
  · by_cases h2 : st.any (fun it => it.wb_id = f.id) = true
    · simp only [processLive, h1, h2, if_false, if_true, Option.some_inj,
        Prod.mk.injEq] at h
      exact Or.inl ⟨h.1.symm, h.2.symm, Or.inr h2⟩
    · simp only [Bool.not_eq_true] at h2
      simp only [processLive, h1, h2, if_false, Bool.false_eq_true] at h
      cases hd : (if f.createdDate = "" then some now else parse f.createdDate) with
      | none =>
        simp only [hd] at h
        exact Option.noConfusion h
      | some dt =>
        simp only [hd, Option.some_inj, Prod.mk.injEq] at h
        exact Or.inr ⟨dt, h1, h2, rfl, h.1.symm, h.2.symm⟩

theorem ingestPage_cons_inv (parse : String → Option DT) (now : DT)
    (st : List Feedback) (f : WBRecord) (rest : List WBRecord)
    (st2 : List Feedback) (k : Nat)
    (h : ingestPage parse now st (f :: rest) = some (st2, k)) :
    ∃ st1 n m, processLive parse now st f = some (st1, n) ∧
      ingestPage parse now st1 rest = some (st2, m) ∧ k = n + m := by
  simp only [ingestPage] at h
  cases hp : processLive parse now st f with
  | none =>
    simp only [hp] at h
    exact Option.noConfusion h
  | some sn =>
    obtain ⟨sta, na⟩ := sn
    simp only [hp] at h
    cases hq : ingestPage parse now sta rest with
    | none =>
      simp only [hq] at h
      exact Option.noConfusion h
    | some sm =>
      obtain ⟨stb, mb⟩ := sm
      simp only [hq, Option.some_inj, Prod.mk.injEq] at h
      exact ⟨sta, na, mb, rfl, by rw [hq, h.1], h.2.symm⟩

theorem ingest_feedbacks_cons_inv (parse : String → Option DT) (now : DT)
    (page : List WBRecord) (rest : List (List WBRecord))
    (st st2 : List Feedback) (k c : Nat) (hpage : ¬ page = [])
    (h : ingest_feedbacks parse now (page :: rest) st = some (st2, k, c)) :
    ∃ st1 n m c1, ingestPage parse now st page = some (st1, n) ∧
      ingest_feedbacks parse now rest st1 = some (st2, m, c1) ∧
      k = n + m ∧ c = c1 + 1 := by
  simp only [ingest_feedbacks, hpage, if_false] at h
  cases hq : ingestPage parse now st page with
  | none =>
    simp only [hq] at h
    exact Option.noConfusion h
  | some sn =>
    obtain ⟨sta, na⟩ := sn
    simp only [hq] at h
    cases hr : ingest_feedbacks parse now rest sta with
    | none =>
      simp only [hr] at h
      exact Option.noConfusion h
    | some smc =>
      obtain ⟨stb, mb, cb⟩ := smc
      simp only [hr, Option.some_inj, Prod.mk.injEq] at h
      exact ⟨sta, na, mb, cb, rfl, by rw [hr, h.1], h.2.1.symm, h.2.2.symm⟩

theorem processLive_extend (parse : String → Option DT) (now : DT)
    (st : List Feedback) (f : WBRecord) (st1 : List Feedback) (n : Nat)
    (h : processLive parse now st f = some (st1, n)) :
    ∃ new, st1 = st ++ new := by
  rcases processLive_inv parse now st f st1 n h with ⟨rfl, _⟩ | ⟨dt, _, _, _, rfl, _⟩
  · exact ⟨[], by simp⟩
  · exact ⟨[mkLiveItem f dt], rfl⟩

theorem ingestPage_extend (parse : String → Option DT) (now : DT) :
    ∀ (page : List WBRecord) (st st1 : List Feedback) (n : Nat),
      ingestPage parse now st page = some (st1, n) →
      ∃ new, st1 = st ++ new := by
  intro page
  induction page with
  | nil =>
    intro st st1 n h
    simp only [ingestPage, Option.some_inj, Prod.mk.injEq] at h
    exact ⟨[], by simp [h.1]⟩
  | cons f rest ih =>
    intro st st1 n h
    obtain ⟨sta, na, mb, hp, hq, _⟩ := ingestPage_cons_inv parse now st f rest st1 n h
    obtain ⟨new1, rfl⟩ := processLive_extend parse now st f sta na hp
    obtain ⟨new2, rfl⟩ := ih (st ++ new1) _ mb hq
    exact ⟨new1 ++ new2, by simp⟩

theorem ingest_feedbacks_extend (parse : String → Option DT) (now : DT) :
    ∀ (pages : List (List WBRecord)) (st st1 : List Feedback) (n c : Nat),
      ingest_feedbacks parse now pages st = some (st1, n, c) →
      ∃ new, st1 = st ++ new := by
  intro pages
  induction pages with
  | nil =>
    intro st st1 n c h
    simp only [ingest_feedbacks, Option.some_inj, Prod.mk.injEq] at h
    exact ⟨[], by simp [h.1]⟩
  | cons page rest ih =>
    intro st st1 n c h
    by_cases hp : page = []
    · simp only [ingest_feedbacks, hp, if_true, Option.some_inj, Prod.mk.injEq] at h
      exact ⟨[], by simp [h.1]⟩
    · obtain ⟨sta, na, mb, cb, hq, hr, _, _⟩ :=
        ingest_feedbacks_cons_inv parse now page rest st st1 n c hp h
      obtain ⟨new1, rfl⟩ := ingestPage_extend parse now page st sta na hq
      obtain ⟨new2, rfl⟩ := ih (st ++ new1) _ mb cb hr
      exact ⟨new1 ++ new2, by simp⟩

theorem processLive_covers (parse : String → Option DT) (now : DT)
    (st : List Feedback) (f : WBRecord) (st1 : List Feedback) (n : Nat)
    (h : processLive parse now st f = some (st1, n)) (hid : ¬ f.id = "") :
    st1.any (fun it => it.wb_id = f.id) = true := by
  rcases processLive_inv parse now st f st1 n h with ⟨rfl, _, hsk⟩ | ⟨dt, _, _, _, rfl, _⟩
  · rcases hsk with hsk | hsk
    · exact absurd hsk hid
    · exact hsk
  · simp [List.any_append, mkLiveItem]

theorem ingestPage_covers (parse : String → Option DT) (now : DT) :
    ∀ (page : List WBRecord) (st st1 : List Feedback) (n : Nat),
      ingestPage parse now st page = some (st1, n) →
      ∀ f ∈ page, ¬ f.id = "" → st1.any (fun it => it.wb_id = f.id) = true := by
  intro page
  induction page with
  | nil => intro st st1 n h f hf; simp at hf
  | cons f0 rest ih =>
    intro st st1 n h f hf hid
    obtain ⟨sta, na, mb, hp, hq, _⟩ := ingestPage_cons_inv parse now st f0 rest st1 n h
    rcases List.mem_cons.mp hf with rfl | hf1
    · have hc := processLive_covers parse now st f sta na hp hid
      obtain ⟨new2, rfl⟩ := ingestPage_extend parse now rest sta st1 mb hq
      simp only [List.any_append]
      rw [hc]
      simp
    · exact ih sta st1 mb hq f hf1 hid

theorem processLive_skip (parse : String → Option DT) (now : DT)
    (st : List Feedback) (f : WBRecord)
    (h : f.id = "" ∨ st.any (fun it => it.wb_id = f.id) = true) :
    processLive parse now st f = some (st, 0) := by
  rcases h with h | h
  · simp [processLive, h]
  · by_cases h1 : f.id = ""
    · simp [processLive, h1]
    · simp [processLive, h1, h]

theorem ingestPage_skip_all (parse : String → Option DT) (now : DT) :
    ∀ (page : List WBRecord) (st : List Feedback),
      (∀ f ∈ page, f.id = "" ∨ st.any (fun it => it.wb_id = f.id) = true) →
      ingestPage parse now st page = some (st, 0) := by
  intro page
  induction page with
  | nil => intro st _; simp [ingestPage]
  | cons f0 rest ih =>
    intro st hall
    have h0 := processLive_skip parse now st f0 (hall f0 (List.mem_cons_self _ _))
    have h1 := ih st (fun f hf => hall f (List.mem_cons_of_mem _ hf))
    simp [ingestPage, h0, h1]

theorem processLive_uniq (parse : String → Option DT) (now : DT)
    (st : List Feedback) (f : WBRecord) (st1 : List Feedback) (n : Nat)
    (h : processLive parse now st f = some (st1, n)) (hu : uniqIds st) :
    uniqIds st1 := by
  rcases processLive_inv parse now st f st1 n h with ⟨rfl, _⟩ | ⟨dt, _, h2, _, rfl, _⟩
  · exact hu
  · rw [uniqIds, List.pairwise_append]
    refine ⟨hu, by simp, ?_⟩
    intro a ha b hb
    simp only [List.mem_singleton] at hb
    subst hb
    simp only [List.any_eq_false, decide_eq_true_eq] at h2
    simpa [mkLiveItem] using h2 a ha

theorem ingestPage_uniq (parse : String → Option DT) (now : DT) :
    ∀ (page : List WBRecord) (st st1 : List Feedback) (n : Nat),
      ingestPage parse now st page = some (st1, n) → uniqIds st →
      uniqIds st1 := by
  intro page
  induction page with
  | nil =>
    intro st st1 n h hu
    simp only [ingestPage, Option.some_inj, Prod.mk.injEq] at h
    rw [← h.1]
    exact hu
  | cons f0 rest ih =>
    intro st st1 n h hu
    obtain ⟨sta, na, mb, hp, hq, _⟩ := ingestPage_cons_inv parse now st f0 rest st1 n h
    exact ih sta st1 mb hq (processLive_uniq parse now st f0 sta na hp hu)

/-- C2: live ingestion is idempotent.  If a run over a fixed sequence of
upstream pages completes, then (a) it preserves `wb_id` uniqueness of the
store (each external id is inserted at most once), and (b) a second run over
the same pages starting from the resulting store inserts zero new items,
leaves the store unchanged, and issues the same per-page commits. -/
theorem ingest_feedbacks_idempotent (parse : String → Option DT) (now : DT) :
    ∀ (pages : List (List WBRecord)) (st st1 : List Feedback) (n c : Nat),
      ingest_feedbacks parse now pages st = some (st1, n, c) →
      (uniqIds st → uniqIds st1) ∧
      ingest_feedbacks parse now pages st1 = some (st1, 0, c) := by
  intro pages
  induction pages with
  | nil =>
    intro st st1 n c h
    simp only [ingest_feedbacks, Option.some_inj, Prod.mk.injEq] at h
    obtain ⟨rfl, -, rfl⟩ := h
    exact ⟨fun hu => hu, rfl⟩
  | cons page rest ih =>
    intro st st1 n c h
    by_cases hp : page = []
    · simp only [ingest_feedbacks, hp, if_true, Option.some_inj, Prod.mk.injEq] at h
      obtain ⟨rfl, -, rfl⟩ := h
      simp [ingest_feedbacks, hp]
    · obtain ⟨sta, na, mb, cb, hq, hr, -, rfl⟩ :=
        ingest_feedbacks_cons_inv parse now page rest st st1 n c hp h
      have hcov : ∀ f ∈ page, f.id = "" ∨
          st1.any (fun it => it.wb_id = f.id) = true := by
        intro f hf
        by_cases hid : f.id = ""
        · exact Or.inl hid
        · refine Or.inr ?_
          have h1 := ingestPage_covers parse now page st sta na hq f hf hid
          obtain ⟨new, rfl⟩ := ingest_feedbacks_extend parse now rest sta st1 mb cb hr
          simp only [List.any_append]
          rw [h1]
          simp
      have hskip := ingestPage_skip_all parse now page st1 hcov
      have hrest := ih sta st1 mb cb hr
      constructor
      · intro hu
        exact hrest.1 (ingestPage_uniq parse now page st sta na hq hu)
      · simp [ingest_feedbacks, hp, hskip, hrest.2]

/-- Witness for `ingest_feedbacks_idempotent`: one page with one fresh record;
the first run inserts it, the second run over the same page inserts nothing. -/
theorem ingest_feedbacks_idempotent_witness :
    ingest_feedbacks (fun _ => some ⟨100, true⟩) ⟨0, false⟩
        [[⟨"R1", none, some "P", none, some "txt", "2026-01-01T00:00:00Z", none,
           some 5, ""⟩]]
        [⟨"R1", none, "P", "txt", none, some 5, Status.loaded, none, ⟨100, true⟩⟩] =
      some ([⟨"R1", none, "P", "txt", none, some 5, Status.loaded, none, ⟨100, true⟩⟩],
        0, 1) :=
  (ingest_feedbacks_idempotent (fun _ => some ⟨100, true⟩) ⟨0, false⟩
      [[⟨"R1", none, some "P", none, some "txt", "2026-01-01T00:00:00Z", none,
         some 5, ""⟩]]
      []
      [⟨"R1", none, "P", "txt", none, some 5, Status.loaded, none, ⟨100, true⟩⟩]
      1 1 (by decide)).2

theorem processArchive_inv (parse : String → Option DT) (cutoff : Int)
    (st : List Feedback) (allOlder : Bool) (f : WBRecord) :
    ∀ it ∈ (processArchive parse cutoff st allOlder f).1,
      it ∈ st ∨
      ∃ dt, pyStrip f.answerText = "" ∧ ¬ f.createdDate = "" ∧
        parse f.createdDate = some dt ∧ cutoff ≤ dt.epoch ∧
        it = mkArchiveItem f dt := by
  intro it hit
  unfold processArchive at hit
  split at hit
  · exact Or.inl hit
  · next h1 =>
    split at hit
    · exact Or.inl hit
    · next h2 =>
      split at hit
      · exact Or.inl hit
      · next dt hd =>
        split at hit
        · exact Or.inl hit
        · next h3 =>
          split at hit
          · exact Or.inl hit
          · split at hit
            · exact Or.inl hit
            · rcases List.mem_append.mp hit with hin | hin
              · exact Or.inl hin
              · refine Or.inr ⟨dt, ?_, h2, hd, le_of_not_lt h3,
                  List.mem_singleton.mp hin⟩
                simpa using h1

theorem ingestPageArchive_inv (parse : String → Option DT) (cutoff : Int) :
    ∀ (page : List WBRecord) (st : List Feedback) (allOlder : Bool),
      ∀ it ∈ (ingestPageArchive parse cutoff st allOlder page).1,
        it ∈ st ∨
        ∃ f ∈ page, ∃ dt, pyStrip f.answerText = "" ∧ ¬ f.createdDate = "" ∧
          parse f.createdDate = some dt ∧ cutoff ≤ dt.epoch ∧
          it = mkArchiveItem f dt := by
  intro page
  induction page with
  | nil => intro st allOlder it hit; exact Or.inl hit
  | cons f0 rest ih =>
    intro st allOlder it hit
    simp only [ingestPageArchive] at hit
    rcases hpa : processArchive parse cutoff st allOlder f0 with ⟨st1, n1, a1⟩
    rw [hpa] at hit
    rcases hpb : ingestPageArchive parse cutoff st1 a1 rest with ⟨st2, m2, a2⟩
    rw [hpb] at hit
    simp only at hit
    have hit2 : it ∈ (ingestPageArchive parse cutoff st1 a1 rest).1 := by
      rw [hpb]; exact hit
    rcases ih st1 a1 it hit2 with hin | ⟨f, hf, dt, hprops⟩
    · have hin1 : it ∈ (processArchive parse cutoff st allOlder f0).1 := by
        rw [hpa]; exact hin
      rcases processArchive_inv parse cutoff st allOlder f0 it hin1 with
        hin0 | ⟨dt, hprops⟩
      · exact Or.inl hin0
      · exact Or.inr ⟨f0, List.mem_cons_self _ _, dt, hprops⟩
    · exact Or.inr ⟨f, List.mem_cons_of_mem _ hf, dt, hprops⟩

/-- C6: archive/backfill ingestion never inserts an item older than the
7-day cutoff and never inserts an item that carries a non-empty upstream
answer: every item of the resulting store either was already stored or stems
from a page record whose stripped upstream answer is empty and whose parsed,
UTC-normalized timestamp is at or after `now - 7d` (and the stored
`created_at_wb` sits at or after the cutoff). -/
theorem archive_ingest_window_guard (parse : String → Option DT) (now : Int)
    (order : Option String) :
    ∀ (pages : List (List WBRecord)) (st : List Feedback),
      ∀ it ∈ (ingest_feedbacks_archive parse (archiveCutoff now) order pages st).1,
        it ∈ st ∨
        ∃ f ∈ pages.flatten, ∃ dt, pyStrip f.answerText = "" ∧
          ¬ f.createdDate = "" ∧ parse f.createdDate = some dt ∧
          archiveCutoff now ≤ dt.epoch ∧ it = mkArchiveItem f dt ∧
          archiveCutoff now ≤ it.created_at_wb.epoch := by
  intro pages
  induction pages with
  | nil => intro st it hit; exact Or.inl hit
  | cons page rest ih =>
    intro st it hit
    by_cases hp : page = []
    · simp only [ingest_feedbacks_archive, hp, if_true] at hit
      exact Or.inl hit
    · simp only [ingest_feedbacks_archive, hp, if_false] at hit
      rcases hpa : ingestPageArchive parse (archiveCutoff now) st true page with
        ⟨st1, n1, a1⟩
      rw [hpa] at hit
      have hpage : ∀ x ∈ st1, x ∈ st ∨
          ∃ f ∈ page, ∃ dt, pyStrip f.answerText = "" ∧ ¬ f.createdDate = "" ∧
            parse f.createdDate = some dt ∧ archiveCutoff now ≤ dt.epoch ∧
            x = mkArchiveItem f dt := by
        intro x hx
        have : x ∈ (ingestPageArchive parse (archiveCutoff now) st true page).1 := by
          rw [hpa]; exact hx
        exact ingestPageArchive_inv parse (archiveCutoff now) page st true x this
      have hlift : ∀ x ∈ st1, x ∈ st ∨
          ∃ f ∈ (page :: rest).flatten, ∃ dt, pyStrip f.answerText = "" ∧
            ¬ f.createdDate = "" ∧ parse f.createdDate = some dt ∧
            archiveCutoff now ≤ dt.epoch ∧ x = mkArchiveItem f dt ∧
            archiveCutoff now ≤ x.created_at_wb.epoch := by
        intro x hx
        rcases hpage x hx with hin | ⟨f, hf, dt, ha, hb, hc, hd, he⟩
        · exact Or.inl hin
        · refine Or.inr ⟨f, ?_, dt, ha, hb, hc, hd, he, ?_⟩
          · simp only [List.flatten_cons, List.mem_append]
            exact Or.inl hf
          · rw [he]
            simpa [mkArchiveItem] using hd
      by_cases hstop : (order = some "dateDesc" ∧ a1 = true)
      · have : it ∈ st1 := by
          have hx : (if order = some "dateDesc" ∧ a1 = true then (st1, n1)
              else
                match ingest_feedbacks_archive parse (archiveCutoff now) order rest st1 with
                | (st2, m) => (st2, n1 + m)) = (st1, n1) := by
            simp [hstop]
          rw [hx] at hit
          exact hit
        exact hlift it this
      · have hx : (if order = some "dateDesc" ∧ a1 = true then (st1, n1)
            else
              match ingest_feedbacks_archive parse (archiveCutoff now) order rest st1 with
              | (st2, m) => (st2, n1 + m)) =
            ((ingest_feedbacks_archive parse (archiveCutoff now) order rest st1).1,
             n1 + (ingest_feedbacks_archive parse (archiveCutoff now) order rest st1).2) := by
          simp [hstop]
        rw [hx] at hit
        rcases ih st1 it hit with hin | ⟨f, hf, dt, ha, hb, hc, hd, he, hg⟩
        · exact hlift it hin
        · refine Or.inr ⟨f, ?_, dt, ha, hb, hc, hd, he, hg⟩
          simp only [List.flatten_cons, List.mem_append]
          exact Or.inr hf

/-- Witness for `archive_ingest_window_guard`: a record two days old is
inserted; the theorem classifies the stored item as coming from an
answer-free in-window record. -/
theorem archive_ingest_window_guard_witness :
    (⟨"R1", none, "P", "txt", none, some 5, Status.loaded, none, ⟨0, true⟩⟩ : Feedback) ∈
        ([] : List Feedback) ∨
      ∃ f ∈ ([[⟨"R1", none, some "P", none, some "txt", "d", none, some 5, ""⟩]] :
          List (List WBRecord)).flatten, ∃ dt : DT,
        pyStrip f.answerText = "" ∧ ¬ f.createdDate = "" ∧
        (fun _ => some (⟨0, false⟩ : DT)) f.createdDate = some dt ∧
        archiveCutoff 86400 ≤ dt.epoch ∧
        (⟨"R1", none, "P", "txt", none, some 5, Status.loaded, none, ⟨0, true⟩⟩ : Feedback) =
          mkArchiveItem f dt ∧
        archiveCutoff 86400 ≤
          (⟨"R1", none, "P", "txt", none, some 5, Status.loaded, none,
            ⟨0, true⟩⟩ : Feedback).created_at_wb.epoch :=
  archive_ingest_window_guard (fun _ => some ⟨0, false⟩) 86400 (some "dateDesc")
    [[⟨"R1", none, some "P", none, some "txt", "d", none, some 5, ""⟩]] []
    ⟨"R1", none, "P", "txt", none, some 5, Status.loaded, none, ⟨0, true⟩⟩
    (by decide)

/-- C7 counterexample: in live mode an unparsable timestamp aborts the whole
run instead of skipping the record.  The page holds the malformed record
followed by a perfectly good one; the run returns the exception (`none`), so
the remaining record is not ingested and the batch does not complete. -/
theorem live_ingest_parse_abort_counterexample :
    ingest_feedbacks (fun _ => none) ⟨0, false⟩
        [[⟨"R1", none, some "P", none, some "txt", "not-a-date", none, some 5, ""⟩,
          ⟨"R2", none, some "Q", none, some "txt", "", none, some 5, ""⟩]]
        [] = none := by
  decide

theorem ingestPageArchive_parse_skip (parse : String → Option DT)
    (cutoff : Int) (f : WBRecord) (hans : pyStrip f.answerText = "")
    (hcd : ¬ f.createdDate = "") (hparse : parse f.createdDate = none) :
    ∀ (pre post : List WBRecord) (st : List Feedback) (allOlder : Bool),
      ingestPageArchive parse cutoff st allOlder (pre ++ f :: post) =
        ingestPageArchive parse cutoff st allOlder (pre ++ post) := by
  have hskip : ∀ st allOlder,
      processArchive parse cutoff st allOlder f = (st, 0, allOlder) := by
    intro st allOlder
    simp [processArchive, hans, hcd, hparse]
  intro pre
  induction pre with
  | nil =>
    intro post st allOlder
    simp only [List.nil_append, ingestPageArchive, hskip]
    rcases ingestPageArchive parse cutoff st allOlder post with ⟨st2, m2, a2⟩
    simp
  | cons g pre' ih =>
    intro post st allOlder
    simp only [List.cons_append, ingestPageArchive, List.append_eq]
    rcases processArchive parse cutoff st allOlder g with ⟨st1, n1, a1⟩
    rw [ih post st1 a1]

theorem processLive_parse_abort (parse : String → Option DT) (now : DT)
    (st : List Feedback) (f : WBRecord) (hid : ¬ f.id = "")
    (hnew : st.any (fun it => it.wb_id = f.id) = false)
    (hcd : ¬ f.createdDate = "") (hparse : parse f.createdDate = none) :
    processLive parse now st f = none := by
  simp [processLive, hid, hnew, hcd, hparse]

theorem ingestPage_parse_abort (parse : String → Option DT) (now : DT)
    (f : WBRecord) (hid : ¬ f.id = "")
    (hcd : ¬ f.createdDate = "") (hparse : parse f.createdDate = none) :
    ∀ (pre post : List WBRecord) (st st1 : List Feedback) (k : Nat),
      ingestPage parse now st pre = some (st1, k) →
      st1.any (fun it => it.wb_id = f.id) = false →
      ingestPage parse now st (pre ++ f :: post) = none := by
  intro pre
  induction pre with
  | nil =>
    intro post st st1 k h hnew
    simp only [ingestPage, Option.some_inj, Prod.mk.injEq] at h
    obtain ⟨rfl, -⟩ := h.imp_left Eq.symm
    simp only [List.nil_append, ingestPage]
    rw [processLive_parse_abort parse now st1 f hid hnew hcd hparse]
  | cons g pre' ih =>
    intro post st st1 k h hnew
    obtain ⟨sta, na, mb, hp, hq, -⟩ :=
      ingestPage_cons_inv parse now st g pre' st1 k h
    simp only [List.cons_append, ingestPage, hp, List.append_eq]
    rw [ih post sta st1 mb hq hnew]

theorem ingest_feedbacks_page_abort (parse : String → Option DT) (now : DT)
    (page : List WBRecord) (pages : List (List WBRecord))
    (st : List Feedback) (hpage : ¬ page = [])
    (habort : ingestPage parse now st page = none) :
    ingest_feedbacks parse now (page :: pages) st = none := by
  simp [ingest_feedbacks, hpage, habort]

/-- C7 amended: the two ingestion modes treat an unparsable timestamp
differently.  Archive mode skips the record individually — removing such a
record from a page does not change the run at all, so neither the page nor
the batch is aborted.  Live mode aborts: once a record with a fresh non-empty
id and an unparsable timestamp is reached, the page returns the exception and
the whole `ingest_feedbacks` run returns it too. -/
theorem timestamp_parse_failure_modes (parse : String → Option DT)
    (f : WBRecord) (hcd : ¬ f.createdDate = "")
    (hparse : parse f.createdDate = none) :
    (∀ (cutoff : Int) (pre post : List WBRecord) (st : List Feedback)
        (allOlder : Bool), pyStrip f.answerText = "" →
      ingestPageArchive parse cutoff st allOlder (pre ++ f :: post) =
        ingestPageArchive parse cutoff st allOlder (pre ++ post)) ∧
    (∀ (now : DT) (pre post : List WBRecord) (st st1 : List Feedback) (k : Nat),
      ¬ f.id = "" →
      ingestPage parse now st pre = some (st1, k) →
      st1.any (fun it => it.wb_id = f.id) = false →
      ingestPage parse now st (pre ++ f :: post) = none) ∧
    (∀ (now : DT) (page : List WBRecord) (pages : List (List WBRecord))
        (st : List Feedback), ¬ page = [] →
      ingestPage parse now st page = none →
      ingest_feedbacks parse now (page :: pages) st = none) := by
  refine ⟨?_, ?_, ?_⟩
  · intro cutoff pre post st allOlder hans
    exact ingestPageArchive_parse_skip parse cutoff f hans hcd hparse pre post st allOlder
  · intro now pre post st st1 k hid h hnew
    exact ingestPage_parse_abort parse now f hid hcd hparse pre post st st1 k h hnew
  · intro now page pages st hpage habort
    exact ingest_feedbacks_page_abort parse now page pages st hpage habort

/-- Witness for `timestamp_parse_failure_modes`: the archive page drops the
malformed record as a no-op. -/
theorem timestamp_parse_failure_modes_witness :
    ingestPageArchive (fun _ => none) 0 [] true
        ([] ++ (⟨"R1", none, some "P", none, some "txt", "bad", none, some 5, ""⟩ :
          WBRecord) :: []) =
      ingestPageArchive (fun _ => none) 0 [] true ([] ++ []) :=
  (timestamp_parse_failure_modes (fun _ => none)
      ⟨"R1", none, some "P", none, some "txt", "bad", none, some 5, ""⟩
      (by decide) rfl).1 0 [] [] [] true (by decide)

/-- C8 counterexample: live-mode ingestion performs no per-record check of the
upstream answer.  A record whose `answer.text` is the non-empty string
"answered upstream" is nevertheless inserted as a new `loaded` item, so the
claimed skip-when-answered rule is false for live mode. -/
theorem live_ingest_answered_inserted_counterexample :
    ingest_feedbacks (fun _ => some ⟨7, true⟩) ⟨0, false⟩
        [[⟨"A1", none, some "P", none, some "txt", "",
           none, some 5, "answered upstream"⟩]]
        [] =
      some ([⟨"A1", none, "P", "txt", none, some 5, Status.loaded, none,
        ⟨0, false⟩⟩], 1, 1) := by
  decide

/-- C8 amended: in live-mode ingestion a record is skipped exactly when its
external id is empty or already stored (any upstream answer carried by the
record is ignored); every other record whose timestamp is absent or parses is
inserted as a new item with status `loaded` and the record's id; an empty
page stops pagination with nothing inserted and no commit; and over pages
that are all non-empty a completed run commits once per page. -/
theorem live_ingest_spec (parse : String → Option DT) (now : DT) :
    (∀ (st : List Feedback) (f : WBRecord),
      f.id = "" ∨ st.any (fun it => it.wb_id = f.id) = true →
      processLive parse now st f = some (st, 0)) ∧
    (∀ (st : List Feedback) (f : WBRecord) (dt : DT),
      ¬ f.id = "" → st.any (fun it => it.wb_id = f.id) = false →
      (if f.createdDate = "" then some now else parse f.createdDate) = some dt →
      processLive parse now st f = some (st ++ [mkLiveItem f dt], 1) ∧
        (mkLiveItem f dt).status = Status.loaded ∧
        (mkLiveItem f dt).wb_id = f.id ∧
        (mkLiveItem f dt).answer_text = none) ∧
    (∀ (pages : List (List WBRecord)) (st : List Feedback),
      ingest_feedbacks parse now ([] :: pages) st = some (st, 0, 0)) ∧
    (∀ (pages : List (List WBRecord)) (st st1 : List Feedback) (n c : Nat),
      (∀ p ∈ pages, ¬ p = []) →
      ingest_feedbacks parse now pages st = some (st1, n, c) →
      c = pages.length) := by
  refine ⟨?_, ?_, ?_, ?_⟩
  · intro st f h
    exact processLive_skip parse now st f h
  · intro st f dt hid hnew hdt
    refine ⟨?_, rfl, rfl, rfl⟩
    simp [processLive, hid, hnew, hdt]
  · intro pages st
    simp [ingest_feedbacks]
  · intro pages
    induction pages with
    | nil =>
      intro st st1 n c _ h
      simp only [ingest_feedbacks, Option.some_inj, Prod.mk.injEq] at h
      simp [← h.2.2]
    | cons page rest ih =>
      intro st st1 n c hne h
      have hpage : ¬ page = [] := hne page (List.mem_cons_self _ _)
      obtain ⟨sta, na, mb, cb, hq, hr, -, rfl⟩ :=
        ingest_feedbacks_cons_inv parse now page rest st st1 n c hpage h
      have := ih sta st1 mb cb (fun p hp => hne p (List.mem_cons_of_mem _ hp)) hr
      simp [this]

/-- Witness for `live_ingest_spec`: a fresh record with id "A1" is inserted
as a `loaded` item. -/
theorem live_ingest_spec_witness :
    processLive (fun _ => some ⟨7, true⟩) ⟨0, false⟩ []
        ⟨"A1", none, some "P", none, some "txt", "", none, some 5, "answered upstream"⟩ =
      some ([mkLiveItem
        ⟨"A1", none, some "P", none, some "txt", "", none, some 5, "answered upstream"⟩
        ⟨0, false⟩], 1) := by
  have h := ((live_ingest_spec (fun _ => some ⟨7, true⟩) ⟨0, false⟩).2.1 []
    ⟨"A1", none, some "P", none, some "txt", "", none, some 5, "answered upstream"⟩
    ⟨0, false⟩ (by decide) rfl rfl).1
  simpa using h

theorem dropWhile_dropWhile (p : Char → Bool) :
    ∀ l : List Char, (l.dropWhile p).dropWhile p = l.dropWhile p := by
  intro l
  induction l with
  | nil => rfl
  | cons c t ih =>
    by_cases hc : p c = true
    · simp [List.dropWhile, hc, ih]
    · simp only [Bool.not_eq_true] at hc
      simp [List.dropWhile, hc]

theorem dropWhile_append_singleton (p : Char → Bool) (c : Char)
    (hc : p c = false) :
    ∀ l : List Char, ∃ l2, List.dropWhile p (l ++ [c]) = l2 ++ [c] := by
  intro l
  induction l with
  | nil => exact ⟨[], by simp [List.dropWhile, hc]⟩
  | cons a t ih =>
    by_cases ha : p a = true
    · obtain ⟨l2, hl2⟩ := ih
      exact ⟨l2, by simp [List.dropWhile, ha, hl2]⟩
    · simp only [Bool.not_eq_true] at ha
      exact ⟨a :: t, by simp [List.dropWhile, ha]⟩

theorem pyStrip_cons_of_head (c : Char) (l : List Char)
    (hc : pyIsSpace c = false) :
    ∃ l2, (pyStrip ⟨c :: l⟩).data = c :: l2 := by
  have h1 : List.dropWhile pyIsSpace (c :: l) = c :: l := by
    simp [List.dropWhile, hc]
  obtain ⟨l2, hl2⟩ :=
    dropWhile_append_singleton pyIsSpace c hc l.reverse
  refine ⟨l2.reverse, ?_⟩
  show ((( (c :: l).dropWhile pyIsSpace).reverse.dropWhile pyIsSpace).reverse) = c :: l2.reverse
  rw [h1]
  simp only [List.reverse_cons, hl2]
  simp

theorem pyStrip_ne_empty_of_head (c : Char) (l : List Char)
    (hc : pyIsSpace c = false) : ¬ pyStrip ⟨c :: l⟩ = "" := by
  intro h
  obtain ⟨l2, hl2⟩ := pyStrip_cons_of_head c l hc
  rw [h] at hl2
  exact List.noConfusion hl2

theorem pyStrip_idem (s : String) : pyStrip (pyStrip s) = pyStrip s := by
  cases hm : s.data.dropWhile pyIsSpace with
  | nil =>
    have h0 : pyStrip s = ⟨[]⟩ := by
      show (⟨((s.data.dropWhile pyIsSpace).reverse.dropWhile pyIsSpace).reverse⟩ : String) = _
      rw [hm]
      rfl
    rw [h0]
    rfl
  | cons c t =>
    have hc : pyIsSpace c = false := by
      by_cases h : pyIsSpace c = true
      · have hdd := dropWhile_dropWhile pyIsSpace s.data
        rw [hm, List.dropWhile_cons_of_pos h] at hdd
        have hle := (List.dropWhile_sublist (l := t) pyIsSpace).length_le
        rw [hdd] at hle
        simp at hle
      · simpa using h
    obtain ⟨l2, hl2⟩ := dropWhile_append_singleton pyIsSpace c hc t.reverse
    have hstrip : pyStrip s = ⟨c :: l2.reverse⟩ := by
      show (⟨((s.data.dropWhile pyIsSpace).reverse.dropWhile pyIsSpace).reverse⟩ : String) = _
      rw [hm]
      simp only [List.reverse_cons, hl2]
      simp
    rw [hstrip]
    have hfront : List.dropWhile pyIsSpace (c :: l2.reverse) = c :: l2.reverse := by
      simp [List.dropWhile, hc]
    have hback : List.dropWhile pyIsSpace (l2 ++ [c]) = l2 ++ [c] := by
      have := dropWhile_dropWhile pyIsSpace ((s.data.dropWhile pyIsSpace).reverse)
      rw [hm] at this
      simp only [List.reverse_cons, hl2] at this
      exact this
    show (⟨(((c :: l2.reverse).dropWhile pyIsSpace).reverse.dropWhile pyIsSpace).reverse⟩ : String) = _
    rw [hfront]
    simp only [List.reverse_cons, List.reverse_reverse, hback]
    simp

theorem pushMany_prop (k : Nat) (excl : List String) :
    ∀ (pool out : List String),
      (∀ r ∈ out, ¬ pyLower r ∈ excl ∧ ¬ r = "") →
      ∀ r ∈ pushMany k excl out pool, ¬ pyLower r ∈ excl ∧ ¬ r = "" := by
  intro pool
  induction pool with
  | nil => intro out hout r hr; exact hout r hr
  | cons t rest ih =>
    intro out hout r hr
    simp only [pushMany] at hr
    by_cases h1 : pyStrip t = ""
    · exact ih out hout r (by simpa [h1] using hr)
    · by_cases h2 : pyLower (pyStrip t) ∈ excl
      · exact ih out hout r (by simpa [h1, h2] using hr)
      · by_cases h3 : out.any (fun x => pyLower (pyStrip t) = pyLower x) = true
        · exact ih out hout r (by simpa [h1, h2, h3] using hr)
        · have hout1 : ∀ r ∈ out ++ [pyStrip t],
              ¬ pyLower r ∈ excl ∧ ¬ r = "" := by
            intro x hx
            rcases List.mem_append.mp hx with hx | hx
            · exact hout x hx
            · rw [List.mem_singleton.mp hx]
              exact ⟨h2, h1⟩
          by_cases h4 : k ≤ (out ++ [pyStrip t]).length
          · simp only [h1, h2, h3, h4, if_false, if_true, Bool.false_eq_true] at hr
            exact hout1 r hr
          · simp only [h1, h2, h3, h4, if_false, if_true, Bool.false_eq_true] at hr
            exact ih (out ++ [pyStrip t]) hout1 r hr

theorem pick_recos_length (preferred available exclude : List String)
    (k : Nat) : (pick_recos preferred available exclude k).length ≤ k := by
  simp only [pick_recos]
  rw [List.length_take]
  exact min_le_left _ _

theorem pick_recos_prop (preferred available exclude : List String) (k : Nat) :
    ∀ r ∈ pick_recos preferred available exclude k,
      ¬ pyLower r ∈ exclude.map (fun e => pyLower (pyStrip e)) ∧ ¬ r = "" := by
  intro r hr
  simp only [pick_recos] at hr
  have hr1 := List.mem_of_mem_take hr
  set excl := exclude.map (fun e => pyLower (pyStrip e)) with hexcl
  have hbase : ∀ x ∈ pushMany k excl [] preferred,
      ¬ pyLower x ∈ excl ∧ ¬ x = "" :=
    pushMany_prop k excl preferred [] (by intro x hx; simp at hx)
  by_cases h : (pushMany k excl [] preferred).length < k
  · simp only [h, if_true] at hr1
    exact pushMany_prop k excl available (pushMany k excl [] preferred) hbase r hr1
  · simp only [h, if_false] at hr1
    exact hbase r hr1

theorem variants_head_ok :
    NO_TEXT_VARIANTS.all
      (fun v => match v.1.data with | [] => false | c :: _ => !pyIsSpace c) = true := by
  decide

theorem render_no_text_reply_ne_empty (pyHash : String → Int)
    (product : String) (recos : List String) :
    ¬ render_no_text_reply pyHash product recos = "" := by
  have hlen : (if pyStrip product = "" then 0
      else (pyHash (pyLower (pyStrip product))).natAbs % NO_TEXT_VARIANTS.length) <
      NO_TEXT_VARIANTS.length := by
    by_cases hp : pyStrip product = ""
    · simp [hp, NO_TEXT_VARIANTS]
    · simp only [hp, if_false, Bool.false_eq_true]
      exact Nat.mod_lt _ (by simp [NO_TEXT_VARIANTS])
  set idx := (if pyStrip product = "" then 0
      else (pyHash (pyLower (pyStrip product))).natAbs % NO_TEXT_VARIANTS.length)
  have hmem : NO_TEXT_VARIANTS.getD idx ("", "") ∈ NO_TEXT_VARIANTS := by
    rw [List.getD_eq_getElem?_getD, List.getElem?_eq_getElem hlen]
    exact List.getElem_mem _
  have hb := (List.all_eq_true.mp variants_head_ok) _ hmem
  set v := NO_TEXT_VARIANTS.getD idx ("", "")
  cases hd : v.1.data with
  | nil => rw [hd] at hb; exact Bool.noConfusion hb
  | cons c lv =>
    rw [hd] at hb
    simp only [Bool.not_eq_true'] at hb
    have hbody : ∀ rest : String, ∃ tail, (v.1 ++ rest).data = c :: tail := by
      intro rest
      refine ⟨lv ++ rest.data, ?_⟩
      rw [String.data_append, hd]
      rfl
    simp only [render_no_text_reply]
    intro hcon
    by_cases hrec : recos = []
    · simp only [hrec, if_true] at hcon
      obtain ⟨tail, htail⟩ := hbody
        ((if pyStrip product = "" then "аромат" else pyStrip product) ++ v.2)
      rw [show v.1 ++ (if pyStrip product = "" then "аромат" else pyStrip product) ++ v.2 =
        v.1 ++ ((if pyStrip product = "" then "аромат" else pyStrip product) ++ v.2) by
          rw [String.append_assoc]] at hcon
      have hcon2 : (pyStrip ⟨c :: tail⟩ : String) = "" := by
        rw [← htail]
        exact hcon
      exact pyStrip_ne_empty_of_head c tail hb hcon2
    · simp only [hrec, if_false, Bool.false_eq_true] at hcon
      obtain ⟨tail, htail⟩ := hbody
        ((if pyStrip product = "" then "аромат" else pyStrip product) ++ v.2 ++
          ("\n" ++ ("🔹 " ++ String.intercalate "\n🔹 " recos)))
      rw [show v.1 ++ (if pyStrip product = "" then "аромат" else pyStrip product) ++ v.2 ++
          "\n" ++ ("🔹 " ++ String.intercalate "\n🔹 " recos) =
        v.1 ++ ((if pyStrip product = "" then "аромат" else pyStrip product) ++ v.2 ++
          ("\n" ++ ("🔹 " ++ String.intercalate "\n🔹 " recos))) by
          simp [String.append_assoc]] at hcon
      have hcon2 : (pyStrip ⟨c :: tail⟩ : String) = "" := by
        rw [← htail]
        exact hcon
      exact pyStrip_ne_empty_of_head c tail hb hcon2

/-- C9: for a no-text feedback (empty text, at most 2 characters, or a
recognized boilerplate marker) with rating 5, `make_answer` synthesizes the
reply without consulting the backend: the result is the deterministic
template rendering over the product title plus the picked recommendations
(so two runs with the same `pyHash` and product title produce the same
text), it is identical for any two backend behaviors and post-filters, the
recommendations number at most 3, and none of them equals the purchased
product's stripped title (case-insensitively for a non-empty title). -/
theorem no_text_reply_spec (pyHash : String → Int)
    (pf1 pf2 : List String → String → Option String) (b1 b2 : GenOutcome)
    (inp : AnswerInput) (avail pref excl : List String)
    (product : String) (recos : List String)
    (_hk : inp.kind = "feedback") (hrt : inp.rating = some 5)
    (hnt : is_no_text_feedback inp = true)
    (hp : product = pyStrip (pyStrOr inp.product_name ""))
    (hr : recos = pick_recos pref avail
      (excl ++ if ¬ product = "" then [product] else []) 3) :
    make_answer pyHash pf1 b1 inp avail pref excl =
      (some (render_no_text_reply pyHash product recos), none) ∧
    make_answer pyHash pf2 b2 inp avail pref excl =
      make_answer pyHash pf1 b1 inp avail pref excl ∧
    recos.length ≤ 3 ∧
    (∀ r ∈ recos, ¬ r = product ∧
      (¬ product = "" → ¬ pyLower r = pyLower product)) := by
  subst hp
  have hgate : ¬ (inp.kind = "feedback" ∧ ¬ inp.rating = some 5) := by
    intro hcon
    exact hcon.2 hrt
  have hmain : make_answer pyHash pf1 b1 inp avail pref excl =
      (some (render_no_text_reply pyHash (pyStrip (pyStrOr inp.product_name "")) recos),
       none) := by
    rw [hr]
    simp only [make_answer, hgate, hnt, if_true, if_false]
    rw [if_neg (render_no_text_reply_ne_empty pyHash
      (pyStrip (pyStrOr inp.product_name "")) _)]
  have hmain2 : make_answer pyHash pf2 b2 inp avail pref excl =
      (some (render_no_text_reply pyHash (pyStrip (pyStrOr inp.product_name "")) recos),
       none) := by
    rw [hr]
    simp only [make_answer, hgate, hnt, if_true, if_false]
    rw [if_neg (render_no_text_reply_ne_empty pyHash
      (pyStrip (pyStrOr inp.product_name "")) _)]
  refine ⟨hmain, hmain2.trans hmain.symm, ?_, ?_⟩
  · rw [hr]
    exact pick_recos_length _ _ _ _
  · intro r hrm
    rw [hr] at hrm
    have hprop := pick_recos_prop pref avail
      (excl ++ if ¬ pyStrip (pyStrOr inp.product_name "") = ""
        then [pyStrip (pyStrOr inp.product_name "")] else []) 3 r hrm
    by_cases hpe : pyStrip (pyStrOr inp.product_name "") = ""
    · refine ⟨?_, fun hne => absurd hpe hne⟩
      intro hcon
      exact hprop.2 (hcon.trans hpe)
    · have hmem : pyLower (pyStrip (pyStrOr inp.product_name "")) ∈
          (excl ++ [pyStrip (pyStrOr inp.product_name "")]).map
            (fun e => pyLower (pyStrip e)) := by
        rw [List.map_append]
        refine List.mem_append_right _ ?_
        simp [pyStrip_idem]
      have hnemem := hprop.1
      rw [if_pos hpe] at hnemem
      have hlow : ¬ pyLower r = pyLower (pyStrip (pyStrOr inp.product_name "")) := by
        intro hcon
        rw [hcon] at hnemem
        exact hnemem hmem
      exact ⟨fun hcon => hlow (by rw [hcon]), fun _ => hlow⟩

/-- Witness for `no_text_reply_spec`: empty-text rating-5 feedback for
"Vanille Intense"; the no-text reply is backend-independent. -/
theorem no_text_reply_spec_witness :
    make_answer (fun _ => 3) (fun _ s => some s) (GenOutcome.quota (some 1))
        ⟨"feedback", "", some "Vanille Intense", some 5⟩ ["G1"] [] [] =
      make_answer (fun _ => 3) (fun _ _ => none) GenOutcome.fail
        ⟨"feedback", "", some "Vanille Intense", some 5⟩ ["G1"] [] [] :=
  (no_text_reply_spec (fun _ => 3) (fun _ _ => none) (fun _ s => some s)
      GenOutcome.fail (GenOutcome.quota (some 1))
      ⟨"feedback", "", some "Vanille Intense", some 5⟩ ["G1"] [] []
      (pyStrip (pyStrOr (some "Vanille Intense") ""))
      (pick_recos [] ["G1"]
        ([] ++ if ¬ pyStrip (pyStrOr (some "Vanille Intense") "") = ""
          then [pyStrip (pyStrOr (some "Vanille Intense") "")] else []) 3)
      rfl rfl (by decide) rfl rfl).2.1

end WB
